import Mathlib

/-!
Verification of the intra-alignment variant discovery core of `pav3`
(`src/pav3/call/intra.py`): the SNV and INS/DEL emitters built from
per-alignment operation streams, the chromosome-partitioned pipeline, the
inversion candidate flag filter, and the inversion table join.

The dataframe pipeline is embedded shallowly: each polars expression chain
becomes a pure list transformation, machine integers become `Int`, Python
slicing/indexing becomes explicit clamped slicing, and external collaborators
(sequence caches, the score model, `cluster_table`, `try_intra_region`, the
filesystem check) become function parameters.
-/

namespace Pav3

/-- Alignment operation codes: `=` (match), `X` (mismatch), `I` (insertion),
`D` (deletion), `S` (soft clip), `H` (hard clip), `N` (reference skip). -/
inductive OpCode
  | EQ
  | X
  | I
  | D
  | S
  | H
  | N
deriving DecidableEq, Repr

/-- Modelled from the spec: op class `ADV_REF = {=, X, D, N}` from
`pav3.align.op` (module not under src), the ops advancing the reference
coordinate. -/
def ADV_REF : OpCode → Bool
  | .EQ => true
  | .X => true
  | .D => true
  | .N => true
  | _ => false

/-- Modelled from the spec: op class `ADV_QRY = {=, X, I, S}` from
`pav3.align.op` (module not under src), the ops advancing the query
coordinate. -/
def ADV_QRY : OpCode → Bool
  | .EQ => true
  | .X => true
  | .I => true
  | .S => true
  | _ => false

/-- Modelled from the spec: the base complement applied through the
translation tables `COMPL_TR_FROM`/`COMPL_TR_TO` of `pav3.call.util` (module
not under src): A↔T, C↔G, N→N, every other base → N. -/
def compl : Char → Char
  | 'A' => 'T'
  | 'T' => 'A'
  | 'C' => 'G'
  | 'G' => 'C'
  | 'N' => 'N'
  | _ => 'N'

/-- Reverse complement of a base list (the `Bio.Seq.reverse_complement`
collaborator restricted to the spec's base alphabet). -/
def revcomp (s : List Char) : List Char :=
  (s.map compl).reverse

/-- Python slice `s[a:b]` on a base list: negative indices wrap from the end,
out-of-range bounds clamp, and an empty slice results when `a ≥ b` after
normalization. -/
def pySlice (s : List Char) (a b : Int) : List Char :=
  let n : Int := s.length
  let a' : Int := if a < 0 then max (n + a) 0 else min a n
  let b' : Int := if b < 0 then max (n + b) 0 else min b n
  (s.take b'.toNat).drop a'.toNat

/-- Python single-base index `s[i]`: a negative index wraps from the end; an
out-of-range index yields a placeholder (the source would raise there). -/
def seqGet (s : List Char) (i : Int) : Char :=
  let i' : Int := if i < 0 then (s.length : Int) + i else i
  s.getD i'.toNat '?'

/-- External inputs of `variant_tables_snv_insdel`: the reference and query
sequence caches (fetch by name) and the alignment score model collaborator
(`score_model.mismatch(1)` is a constant; `score_model.gap` maps a gap length
to a score). Scores are embedded as integers: the source uses floats but the
verified claims depend only on score comparisons. -/
structure Ctx where
  refSeq : String → List Char
  qrySeq : String → List Char
  mismatchScore : Int
  gapScore : Nat → Int

/-- One alignment record of `df_align`, restricted to the fields
`variant_tables_snv_insdel` reads. -/
structure AlignRecord where
  align_index : Nat
  chrom : String
  pos : Int
  qry_id : String
  is_rev : Bool
  score : Int
  filter : String
  ops : List (OpCode × Nat)
deriving DecidableEq, Repr

/-- One exploded op row with running coordinates, as built by the cumulative
sums over `ref_len`/`qry_len` (`intra.py` lines 162-191): `pos`/`qry_pos` are
the coordinates before the op and `end`/`qry_end` after it. -/
structure OpRow where
  op_code : OpCode
  op_len : Nat
  pos : Int
  end_ : Int
  qry_pos : Int
  qry_end : Int
deriving DecidableEq, Repr

/-- Cumulative-sum expansion of an op list: running reference coordinate
`refc` (seeded with the record's `pos`) advances on `ADV_REF` ops, running
query coordinate `qryc` (seeded with 0) advances on `ADV_QRY` ops. -/
def expandOps : List (OpCode × Nat) → Int → Int → List OpRow
  | [], _, _ => []
  | (c, l) :: rest, refc, qryc =>
    let re := refc + (if ADV_REF c then (l : Int) else 0)
    let qe := qryc + (if ADV_QRY c then (l : Int) else 0)
    { op_code := c, op_len := l, pos := refc, end_ := re, qry_pos := qryc, qry_end := qe }
      :: expandOps rest re qe

/-- The op rows of a record in aligned-strand query space (seeded at 0). -/
def rawOpRows (rec : AlignRecord) : List OpRow :=
  expandOps rec.ops rec.pos 0

/-- Reverse-record remap to original-contig query coordinates
(`intra.py` lines 193-200): `qry_pos' = qry_len − qry_end`,
`qry_end' = qry_len − qry_pos`, both computed from the pre-remap columns. -/
def remapRow (qlen : Int) (r : OpRow) : OpRow :=
  { r with qry_pos := qlen - r.qry_end, qry_end := qlen - r.qry_pos }

/-- Op rows fed to the SNV and INS/DEL emitters: remapped to original-contig
space when the record is reverse, unchanged otherwise. -/
def opRowsOfRecord (ctx : Ctx) (rec : AlignRecord) : List OpRow :=
  let qlen : Int := (ctx.qrySeq rec.qry_id).length
  if rec.is_rev then (rawOpRows rec).map (remapRow qlen) else rawOpRows rec

/-- One output variant row over the common superschema. The source drops the
internal `_align_score` column after the final per-chromosome sort and
`schema.cast` only casts dtypes; the embedding keeps the column (as
`align_score`) since dropping it changes no row content or order relevant to
the claims. -/
structure VariantRow where
  chrom : String
  pos : Int
  end_ : Int
  id : String
  vartype : String
  ref : Option Char := none
  alt : Option Char := none
  varlen : Option Nat := none
  filter : Option String := none
  qry_id : String
  qry_pos : Int
  qry_end : Int
  qry_rev : Bool
  call_source : String
  var_score : Int
  align_source : List Nat
  seq : Option (List Char) := none
  align_score : Int
deriving DecidableEq, Repr

/-- Modelled from the spec: `expr.id_snv()` of `pav3.call.expr` (module not
under src): `id = "{chrom}-{pos+1}-SNV-{alt}"` (1-based display coordinate). -/
def id_snv (chrom : String) (pos : Int) (alt : Char) : String :=
  chrom ++ "-" ++ toString (pos + 1) ++ "-SNV-" ++ String.mk [alt]

/-- Modelled from the spec: `expr.id_nonsnv()` of `pav3.call.expr` (module not
under src): `id = "{chrom}-{pos+1}-{vartype}-{varlen}"`. -/
def id_nonsnv (chrom : String) (pos : Int) (vartype : String) (varlen : Nat) : String :=
  chrom ++ "-" ++ toString (pos + 1) ++ "-" ++ vartype ++ "-" ++ toString varlen

/-- One SNV row for offset `o` inside a mismatch op row `r` (`intra.py` lines
203-253): `pos' = pos + o`, `qry_pos' = qry_pos + o + (op_len − 2o − 1)·qry_shift`
where `qry_shift = 1` on reverse records and 0 otherwise; `ref = seq_ref[pos']`,
`alt = seq_qry[qry_pos']`, complemented on reverse records. -/
def snvRowOfOffset (ctx : Ctx) (rec : AlignRecord) (r : OpRow) (o : Nat) : VariantRow :=
  let qry_shift : Int := if rec.is_rev then 1 else 0
  let pos' := r.pos + (o : Int)
  let qp' := r.qry_pos + (o : Int) + ((r.op_len : Int) - 2 * (o : Int) - 1) * qry_shift
  let altRaw := seqGet (ctx.qrySeq rec.qry_id) qp'
  let altc := if rec.is_rev then compl altRaw else altRaw
  { chrom := rec.chrom
    pos := pos'
    end_ := pos' + 1
    id := id_snv rec.chrom pos' altc
    vartype := "SNV"
    ref := some (seqGet (ctx.refSeq rec.chrom) pos')
    alt := some altc
    filter := some rec.filter
    qry_id := rec.qry_id
    qry_pos := qp'
    qry_end := qp' + 1
    qry_rev := rec.is_rev
    call_source := "INTRA"
    var_score := ctx.mismatchScore
    align_source := [rec.align_index]
    align_score := rec.score }

/-- SNV emitter over exploded op rows: keep `X` ops and expand each op of
length L into L one-base rows (offsets `0, …, L−1` in order). -/
def snvFromOps (ctx : Ctx) (rec : AlignRecord) (rows : List OpRow) : List VariantRow :=
  (rows.filter (fun r => r.op_code == OpCode.X)).flatMap
    (fun r => (List.range r.op_len).map (snvRowOfOffset ctx rec r))

/-- All SNV rows emitted from one record. -/
def snvRowsOfRecord (ctx : Ctx) (rec : AlignRecord) : List VariantRow :=
  snvFromOps ctx rec (opRowsOfRecord ctx rec)

/-- The `get_ins_seq` closure (`intra.py` lines 156-159): the query slice in
original-contig coordinates, reverse-complemented on reverse records. -/
def get_ins_seq (ctx : Ctx) (rec : AlignRecord) (a b : Int) : List Char :=
  if rec.is_rev then revcomp (pySlice (ctx.qrySeq rec.qry_id) a b)
  else pySlice (ctx.qrySeq rec.qry_id) a b

/-- One INS row from an `I` op row (`intra.py` lines 256-269): `end = pos + 1`,
`varlen = op_len`, `seq = get_ins_seq(qry_pos, qry_end)`,
`var_score = gap(op_len)`. -/
def insRowOfOp (ctx : Ctx) (rec : AlignRecord) (r : OpRow) : VariantRow :=
  { chrom := rec.chrom
    pos := r.pos
    end_ := r.pos + 1
    id := id_nonsnv rec.chrom r.pos "INS" r.op_len
    vartype := "INS"
    varlen := some r.op_len
    filter := some rec.filter
    qry_id := rec.qry_id
    qry_pos := r.qry_pos
    qry_end := r.qry_end
    qry_rev := rec.is_rev
    call_source := "INTRA"
    var_score := ctx.gapScore r.op_len
    align_source := [rec.align_index]
    seq := some (get_ins_seq ctx rec r.qry_pos r.qry_end)
    align_score := rec.score }

/-- One DEL row from a `D` op row (`intra.py` lines 271-284):
`qry_end = qry_pos + 1`, `varlen = op_len`, `seq = seq_ref[pos:end]`,
`var_score = gap(op_len)`. -/
def delRowOfOp (ctx : Ctx) (rec : AlignRecord) (r : OpRow) : VariantRow :=
  { chrom := rec.chrom
    pos := r.pos
    end_ := r.end_
    id := id_nonsnv rec.chrom r.pos "DEL" r.op_len
    vartype := "DEL"
    varlen := some r.op_len
    filter := some rec.filter
    qry_id := rec.qry_id
    qry_pos := r.qry_pos
    qry_end := r.qry_pos + 1
    qry_rev := rec.is_rev
    call_source := "INTRA"
    var_score := ctx.gapScore r.op_len
    align_source := [rec.align_index]
    seq := some (pySlice (ctx.refSeq rec.chrom) r.pos r.end_)
    align_score := rec.score }

open scoped Lex

/-- Stable key sort modelling `DataFrame.sort` on the key's columns; a
descending column is encoded by negating the key component. -/
def sortOn {α K : Type} [LinearOrder K] (key : α → K) (l : List α) : List α :=
  List.insertionSort (fun a b => key a ≤ key b) l

/-- Per-record INS/DEL sort key `(pos, end, _align_score desc, qry_id,
qry_pos)` (`intra.py` lines 288-291). -/
def insdelRecordKey (v : VariantRow) : Int ×ₗ (Int ×ₗ (Int ×ₗ (List Char ×ₗ Int))) :=
  toLex (v.pos, toLex (v.end_, toLex (-v.align_score, toLex (v.qry_id.data, v.qry_pos))))

/-- Per-record INS/DEL table: INS rows, then DEL rows, sorted by the
per-record key (`intra.py` lines 256-305). -/
def insdelRowsOfRecord (ctx : Ctx) (rec : AlignRecord) : List VariantRow :=
  let rows := opRowsOfRecord ctx rec
  let ins := (rows.filter (fun r => r.op_code == OpCode.I)).map (insRowOfOp ctx rec)
  let del := (rows.filter (fun r => r.op_code == OpCode.D)).map (delRowOfOp ctx rec)
  sortOn insdelRecordKey (ins ++ del)

/-- Chromosome-level SNV sort key `(pos, alt, var_score desc, _align_score
desc, qry_id, qry_pos)` (`intra.py` lines 314-324). SNV rows always carry an
`alt` base, so the default on `none` is never relevant. -/
def snvChromKey (v : VariantRow) : Int ×ₗ (Char ×ₗ (Int ×ₗ (Int ×ₗ (List Char ×ₗ Int)))) :=
  toLex (v.pos, toLex (v.alt.getD 'A',
    toLex (-v.var_score, toLex (-v.align_score, toLex (v.qry_id.data, v.qry_pos)))))

/-- Chromosome-level INS/DEL sort key `(pos, var_score desc, _align_score
desc, qry_id, qry_pos)` (`intra.py` lines 326-336). -/
def insdelChromKey (v : VariantRow) : Int ×ₗ (Int ×ₗ (Int ×ₗ (List Char ×ₗ Int))) :=
  toLex (v.pos, toLex (-v.var_score, toLex (-v.align_score, toLex (v.qry_id.data, v.qry_pos))))

/-- Alignment records of one chromosome in processing order:
`filter(chrom == c).sort('qry_id')` (`intra.py` lines 138-145). -/
def chromRecords (records : List AlignRecord) (c : String) : List AlignRecord :=
  sortOn (fun r => r.qry_id.data) (records.filter (fun r => r.chrom == c))

/-- The finished SNV partition of one chromosome. -/
def chromSnvTable (ctx : Ctx) (records : List AlignRecord) (c : String) : List VariantRow :=
  sortOn snvChromKey ((chromRecords records c).flatMap (snvRowsOfRecord ctx))

/-- The finished INS/DEL partition of one chromosome. -/
def chromInsdelTable (ctx : Ctx) (records : List AlignRecord) (c : String) : List VariantRow :=
  sortOn insdelChromKey ((chromRecords records c).flatMap (insdelRowsOfRecord ctx))

/-- `df_align.select('chrom').unique().sort('chrom')` (`intra.py` line 106). -/
def chromList (records : List AlignRecord) : List String :=
  sortOn (fun c => c.data) ((records.map (fun r => r.chrom)).dedup)

/-- Parquet spill file names written when a temporary directory is configured
(`intra.py` lines 129-132 and 339-348). -/
def spillFiles (d : String) (records : List AlignRecord) : List String :=
  (chromList records).flatMap
    (fun c => [d ++ "/snv_" ++ c ++ ".parquet", d ++ "/insdel_" ++ c ++ ".parquet"])

/-- Result of a successful `variant_tables_snv_insdel` call: the concatenated
SNV table, the concatenated INS/DEL table, and the spill files written. -/
structure Tables where
  snv : List VariantRow
  insdel : List VariantRow
  spilled : List String
deriving DecidableEq, Repr

/-- `variant_tables_snv_insdel` (`intra.py` lines 52-361): reject a configured
temporary directory that is missing or not a directory before any chromosome
is processed, then build per-chromosome tables and concatenate them in
ascending chromosome order. `isDir` abstracts `os.path.isdir`. -/
def variant_tables_snv_insdel (ctx : Ctx) (records : List AlignRecord) :
    Option String → (String → Bool) → Except String Tables
  | some d, isDir =>
    if isDir d then
      .ok { snv := (chromList records).flatMap (chromSnvTable ctx records)
            insdel := (chromList records).flatMap (chromInsdelTable ctx records)
            spilled := spillFiles d records }
    else
      .error ("Temporary directory does not exist or is not a directory: " ++ d)
  | none, _ =>
    .ok { snv := (chromList records).flatMap (chromSnvTable ctx records)
          insdel := (chromList records).flatMap (chromInsdelTable ctx records)
          spilled := [] }

/-- One row of the `cluster_table` collaborator's output, restricted to the
fields read downstream. -/
structure FlagRow where
  chrom : String
  pos : Int
  end_ : Int
  align_index : Nat
  flag : List String
deriving DecidableEq, Repr

/-- `variant_flag_inv` (`intra.py` lines 461-512): return the clustering
collaborator's candidate rows with the SNV-only clusters
(`flag == ['CLUSTER_SNV']`) filtered out. The collaborator's output table is
taken as the input. -/
def variant_flag_inv (cluster : List FlagRow) : List FlagRow :=
  cluster.filter (fun r => !(r.flag == ["CLUSTER_SNV"]))

/-- An accepted inversion row as returned by the `try_intra_region`
collaborator (fields per `get_inv_row`). -/
structure InvRow where
  chrom : String
  pos : Int
  end_ : Int
  vartype : String
  varlen : Nat
  qry_id : String
  qry_pos : Int
  qry_end : Int
  qry_rev : Bool
  var_score : Int
  align_source : List Nat
deriving DecidableEq, Repr

/-- An output row of `variant_tables_inv` after id/call_source stamping and
the filter join. -/
structure InvOutRow where
  row : InvRow
  id : String
  call_source : String
  filter : Option String
deriving DecidableEq, Repr

/-- Left join of one inversion row against the alignment table on the first
`align_source` element (`intra.py` lines 450-455): an unmatched (or empty)
join key keeps the row with a null `filter`; a matched key emits one row per
matching alignment record. -/
def joinFilterRows (align : List AlignRecord) (r : InvRow) : List InvOutRow :=
  let key := r.align_source.head?
  let hits := align.filter (fun a => key == some a.align_index)
  let stamped : InvOutRow :=
    { row := r, id := id_nonsnv r.chrom r.pos r.vartype r.varlen,
      call_source := "INTRA", filter := none }
  match hits with
  | [] => [stamped]
  | ms => ms.map (fun a => { stamped with filter := some a.filter })

/-- `variant_tables_inv` (`intra.py` lines 364-458): run the confirmation
collaborator on each flagged region, keep the accepted rows, stamp `id` and
`call_source`, and left join `filter` from the alignment table. `tryRegion`
abstracts `try_intra_region` with its fixed arguments applied. -/
def variant_tables_inv (align : List AlignRecord) (flags : List FlagRow)
    (tryRegion : FlagRow → Option InvRow) : List InvOutRow :=
  (flags.filterMap tryRegion).flatMap (joinFilterRows align)

/-- Total reference advance of an op list (Σ `op_len` over `ADV_REF` ops). -/
def totalRef (ops : List (OpCode × Nat)) : Int :=
  (ops.map (fun p => if ADV_REF p.1 then (p.2 : Int) else 0)).sum

/-- Total query advance of an op list (Σ `op_len` over `ADV_QRY` ops). -/
def totalQry (ops : List (OpCode × Nat)) : Int :=
  (ops.map (fun p => if ADV_QRY p.1 then (p.2 : Int) else 0)).sum

/-- Sum of the lengths of the ops carrying code `c`. -/
def sumOpLens (c : OpCode) (ops : List (OpCode × Nat)) : Nat :=
  ((ops.filter (fun p => p.1 == c)).map (fun p => p.2)).sum

/-- Well-formedness of a record against the sequences (the alignment-record
invariant of the data model, which the source assumes when it indexes and
slices sequences): nonnegative reference start, ops staying inside the
reference chromosome, and total query advance fitting inside the query
contig. -/
def validRecord (ctx : Ctx) (rec : AlignRecord) : Prop :=
  0 ≤ rec.pos ∧
  rec.pos + totalRef rec.ops ≤ ((ctx.refSeq rec.chrom).length : Int) ∧
  totalQry rec.ops ≤ ((ctx.qrySeq rec.qry_id).length : Int)

instance (ctx : Ctx) (rec : AlignRecord) : Decidable (validRecord ctx rec) := by
  unfold validRecord
  infer_instance

/-- Placeholder variant row used as the default of total list indexing in
concrete examples. -/
def dummyRow : VariantRow :=
  { chrom := "", pos := 0, end_ := 0, id := "", vartype := "", qry_id := "",
    qry_pos := 0, qry_end := 0, qry_rev := false, call_source := "",
    var_score := 0, align_source := [], align_score := 0 }

/-- Placeholder op row used as the default of total list indexing in concrete
examples. -/
def dummyOp : OpRow :=
  { op_code := .EQ, op_len := 0, pos := 0, end_ := 0, qry_pos := 0, qry_end := 0 }

/-- Concrete context for the examples: 8-base reference, 6-base query,
mismatch score −1, gap score −(len)−1. -/
def ctxW : Ctx :=
  { refSeq := fun _ => ['A', 'C', 'G', 'T', 'A', 'C', 'G', 'T']
    qrySeq := fun _ => ['A', 'C', 'G', 'T', 'A', 'C']
    mismatchScore := -1
    gapScore := fun l => -(l : Int) - 1 }

/-- Concrete reverse-strand record with a 2-base mismatch, an insertion and a
deletion. -/
def recRev : AlignRecord :=
  { align_index := 3, chrom := "chr1", pos := 1, qry_id := "q1", is_rev := true,
    score := 10, filter := "PASS", ops := [(.X, 2), (.I, 1), (.D, 2)] }

/-- Concrete forward-strand record with a mismatch, an insertion and a
deletion. -/
def recFwd : AlignRecord :=
  { align_index := 4, chrom := "chr1", pos := 0, qry_id := "q1", is_rev := false,
    score := 7, filter := "PASS", ops := [(.EQ, 1), (.X, 1), (.I, 2), (.D, 1), (.EQ, 1)] }

/-- Concrete record on a second chromosome. -/
def recChr2 : AlignRecord :=
  { align_index := 5, chrom := "chr2", pos := 0, qry_id := "q2", is_rev := false,
    score := 5, filter := "PASS", ops := [(.X, 1)] }

/-- Concrete alignment table spanning two chromosomes. -/
def recsW : List AlignRecord := [recRev, recFwd, recChr2]

/-- The tables produced by the concrete pipeline run without a temporary
directory. -/
def tablesW : Tables :=
  { snv := (chromList recsW).flatMap (chromSnvTable ctxW recsW)
    insdel := (chromList recsW).flatMap (chromInsdelTable ctxW recsW)
    spilled := [] }

/-- Concrete candidate row flagged `MATCH_INDEL`. -/
def flagMatch : FlagRow :=
  { chrom := "chr1", pos := 10, end_ := 20, align_index := 7, flag := ["MATCH_INDEL"] }

/-- Concrete candidate row flagged as an SNV-only cluster. -/
def flagSnvOnly : FlagRow :=
  { chrom := "chr1", pos := 30, end_ := 40, align_index := 8, flag := ["CLUSTER_SNV"] }

/-- Concrete accepted inversion row whose `align_source` head matches no
alignment record of the concrete table. -/
def invW : InvRow :=
  { chrom := "chr1", pos := 10, end_ := 20, vartype := "INV", varlen := 10,
    qry_id := "q1", qry_pos := 3, qry_end := 13, qry_rev := true,
    var_score := 0, align_source := [99] }

/-! Helper lemmas about the sort, the op-stream expander and the emitters. -/

theorem sortOn_perm {α K : Type} [LinearOrder K] (key : α → K) (l : List α) :
    (sortOn key l).Perm l :=
  List.perm_insertionSort _ l

theorem sortOn_sorted {α K : Type} [LinearOrder K] (key : α → K) (l : List α) :
    (sortOn key l).Sorted (fun a b => key a ≤ key b) := by
  haveI : IsTotal α fun a b => key a ≤ key b := ⟨fun a b => le_total (key a) (key b)⟩
  haveI : IsTrans α fun a b => key a ≤ key b := ⟨fun a b c hab hbc => le_trans hab hbc⟩
  exact List.sorted_insertionSort _ l

theorem mem_sortOn {α K : Type} [LinearOrder K] {key : α → K} {l : List α} {a : α} :
    a ∈ sortOn key l ↔ a ∈ l :=
  (sortOn_perm key l).mem_iff

theorem expandOps_map_code_len (ops : List (OpCode × Nat)) (refc qryc : Int) :
    (expandOps ops refc qryc).map (fun r => (r.op_code, r.op_len)) = ops := by
  induction ops generalizing refc qryc with
  | nil => rfl
  | cons p rest ih =>
    obtain ⟨c, l⟩ := p
    simp [expandOps, ih]

theorem totalRef_cons (c : OpCode) (l : Nat) (rest : List (OpCode × Nat)) :
    totalRef ((c, l) :: rest) = (if ADV_REF c then (l : Int) else 0) + totalRef rest := by
  simp [totalRef]

theorem totalQry_cons (c : OpCode) (l : Nat) (rest : List (OpCode × Nat)) :
    totalQry ((c, l) :: rest) = (if ADV_QRY c then (l : Int) else 0) + totalQry rest := by
  simp [totalQry]

theorem totalRef_nonneg (ops : List (OpCode × Nat)) : 0 ≤ totalRef ops := by
  refine List.sum_nonneg ?_
  intro x hx
  simp only [List.mem_map] at hx
  obtain ⟨p, -, rfl⟩ := hx
  split
  · exact Int.natCast_nonneg _
  · exact le_refl 0

theorem totalQry_nonneg (ops : List (OpCode × Nat)) : 0 ≤ totalQry ops := by
  refine List.sum_nonneg ?_
  intro x hx
  simp only [List.mem_map] at hx
  obtain ⟨p, -, rfl⟩ := hx
  split
  · exact Int.natCast_nonneg _
  · exact le_refl 0

theorem expandOps_mem {ops : List (OpCode × Nat)} {refc qryc : Int} {r : OpRow}
    (h : r ∈ expandOps ops refc qryc) :
    r.end_ = r.pos + (if ADV_REF r.op_code then (r.op_len : Int) else 0) ∧
    r.qry_end = r.qry_pos + (if ADV_QRY r.op_code then (r.op_len : Int) else 0) ∧
    refc ≤ r.pos ∧ r.end_ ≤ refc + totalRef ops ∧
    qryc ≤ r.qry_pos ∧ r.qry_end ≤ qryc + totalQry ops := by
  induction ops generalizing refc qryc with
  | nil => cases h
  | cons p rest ih =>
    obtain ⟨c, l⟩ := p
    have hra : (0 : Int) ≤ if ADV_REF c then (l : Int) else 0 := by
      split
      · exact Int.natCast_nonneg _
      · exact le_refl 0
    have hqa : (0 : Int) ≤ if ADV_QRY c then (l : Int) else 0 := by
      split
      · exact Int.natCast_nonneg _
      · exact le_refl 0
    simp only [expandOps, List.mem_cons] at h
    rcases h with rfl | h
    · refine ⟨rfl, rfl, le_refl _, ?_, le_refl _, ?_⟩
      · rw [totalRef_cons]
        have := totalRef_nonneg rest
        simp only []
        linarith
      · rw [totalQry_cons]
        have := totalQry_nonneg rest
        simp only []
        linarith
    · have hb := ih h
      obtain ⟨h1, h2, h3, h4, h5, h6⟩ := hb
      refine ⟨h1, h2, by linarith, ?_, by linarith, ?_⟩
      · rw [totalRef_cons]
        linarith
      · rw [totalQry_cons]
        linarith

theorem opRows_map_code_len (ctx : Ctx) (rec : AlignRecord) :
    (opRowsOfRecord ctx rec).map (fun r => (r.op_code, r.op_len)) = rec.ops := by
  unfold opRowsOfRecord rawOpRows
  split
  · rw [List.map_map]
    exact expandOps_map_code_len _ _ _
  · exact expandOps_map_code_len _ _ _

theorem opRows_mem_valid {ctx : Ctx} {rec : AlignRecord} {r : OpRow}
    (hv : validRecord ctx rec) (h : r ∈ opRowsOfRecord ctx rec) :
    r.end_ = r.pos + (if ADV_REF r.op_code then (r.op_len : Int) else 0) ∧
    r.qry_end = r.qry_pos + (if ADV_QRY r.op_code then (r.op_len : Int) else 0) ∧
    0 ≤ r.pos ∧ r.end_ ≤ ((ctx.refSeq rec.chrom).length : Int) ∧
    0 ≤ r.qry_pos ∧ r.qry_end ≤ ((ctx.qrySeq rec.qry_id).length : Int) := by
  obtain ⟨hp0, hrtot, hqtot⟩ := hv
  unfold opRowsOfRecord rawOpRows at h
  by_cases hrev : rec.is_rev
  · simp only [hrev, if_true, List.mem_map] at h
    obtain ⟨r0, hr0, rfl⟩ := h
    obtain ⟨h1, h2, h3, h4, h5, h6⟩ := expandOps_mem hr0
    have hq0 := totalQry_nonneg rec.ops
    simp only [remapRow]
    exact ⟨h1, by linarith, by linarith, by linarith, by linarith, by linarith⟩
  · simp only [hrev, if_false, Bool.false_eq_true] at h
    obtain ⟨h1, h2, h3, h4, h5, h6⟩ := expandOps_mem h
    exact ⟨h1, h2, by linarith, by linarith, by linarith, by linarith⟩

theorem pySlice_length {s : List Char} {a b : Int} (ha : 0 ≤ a) (hab : a ≤ b)
    (hb : b ≤ (s.length : Int)) : ((pySlice s a b).length : Int) = b - a := by
  simp only [pySlice, List.length_drop, List.length_take]
  rw [if_neg (by omega), if_neg (by omega)]
  omega

theorem revcomp_length (s : List Char) : (revcomp s).length = s.length := by
  simp [revcomp]

theorem get_ins_seq_length {ctx : Ctx} {rec : AlignRecord} {a b : Int}
    (ha : 0 ≤ a) (hab : a ≤ b) (hb : b ≤ ((ctx.qrySeq rec.qry_id).length : Int)) :
    ((get_ins_seq ctx rec a b).length : Int) = b - a := by
  unfold get_ins_seq
  split
  · rw [revcomp_length]
    exact pySlice_length ha hab hb
  · exact pySlice_length ha hab hb

theorem mem_snvRowsOfRecord {ctx : Ctx} {rec : AlignRecord} {row : VariantRow} :
    row ∈ snvRowsOfRecord ctx rec ↔
      ∃ r, (r ∈ opRowsOfRecord ctx rec ∧ r.op_code = OpCode.X) ∧
        ∃ o, o < r.op_len ∧ row = snvRowOfOffset ctx rec r o := by
  unfold snvRowsOfRecord snvFromOps
  rw [List.mem_flatMap]
  constructor
  · rintro ⟨r, hr, hrow⟩
    rw [List.mem_filter] at hr
    rw [List.mem_map] at hrow
    obtain ⟨o, ho, rfl⟩ := hrow
    exact ⟨r, ⟨hr.1, by simpa using hr.2⟩, o, by simpa using ho, rfl⟩
  · rintro ⟨r, ⟨hr, hx⟩, o, ho, rfl⟩
    refine ⟨r, List.mem_filter.mpr ⟨hr, by simp [hx]⟩, List.mem_map.mpr ⟨o, by simpa using ho, rfl⟩⟩

theorem insdelRowsOfRecord_perm (ctx : Ctx) (rec : AlignRecord) :
    (insdelRowsOfRecord ctx rec).Perm
      ((((opRowsOfRecord ctx rec).filter (fun r => r.op_code == OpCode.I)).map (insRowOfOp ctx rec)) ++
        (((opRowsOfRecord ctx rec).filter (fun r => r.op_code == OpCode.D)).map (delRowOfOp ctx rec))) := by
  unfold insdelRowsOfRecord
  exact sortOn_perm _ _

theorem mem_insdelRowsOfRecord {ctx : Ctx} {rec : AlignRecord} {row : VariantRow} :
    row ∈ insdelRowsOfRecord ctx rec ↔
      ((∃ r, (r ∈ opRowsOfRecord ctx rec ∧ r.op_code = OpCode.I) ∧ row = insRowOfOp ctx rec r) ∨
        (∃ r, (r ∈ opRowsOfRecord ctx rec ∧ r.op_code = OpCode.D) ∧ row = delRowOfOp ctx rec r)) := by
  rw [(insdelRowsOfRecord_perm ctx rec).mem_iff, List.mem_append]
  constructor
  · rintro (h | h) <;> rw [List.mem_map] at h
    · obtain ⟨r, hr, rfl⟩ := h
      rw [List.mem_filter] at hr
      exact Or.inl ⟨r, ⟨hr.1, by simpa using hr.2⟩, rfl⟩
    · obtain ⟨r, hr, rfl⟩ := h
      rw [List.mem_filter] at hr
      exact Or.inr ⟨r, ⟨hr.1, by simpa using hr.2⟩, rfl⟩
  · rintro (⟨r, ⟨hr, hc⟩, rfl⟩ | ⟨r, ⟨hr, hc⟩, rfl⟩)
    · exact Or.inl (List.mem_map.mpr ⟨r, List.mem_filter.mpr ⟨hr, by simp [hc]⟩, rfl⟩)
    · exact Or.inr (List.mem_map.mpr ⟨r, List.mem_filter.mpr ⟨hr, by simp [hc]⟩, rfl⟩)

theorem sumOpLens_filter_map (c : OpCode) (rows : List OpRow) :
    sumOpLens c (rows.map (fun r => (r.op_code, r.op_len))) =
      ((rows.filter (fun r => r.op_code == c)).map (fun r => r.op_len)).sum := by
  induction rows with
  | nil => rfl
  | cons r rest ih =>
    by_cases h : r.op_code == c
    · simp [sumOpLens, List.filter_cons, h] at ih ⊢
      exact ih
    · simp [sumOpLens, List.filter_cons, h] at ih ⊢
      exact ih

theorem snvRowsOfRecord_length (ctx : Ctx) (rec : AlignRecord) :
    (snvRowsOfRecord ctx rec).length = sumOpLens OpCode.X rec.ops := by
  unfold snvRowsOfRecord snvFromOps
  rw [List.length_flatMap]
  have hmap : (List.map (List.length ∘ fun r => (List.range r.op_len).map (snvRowOfOffset ctx rec r))
      ((opRowsOfRecord ctx rec).filter (fun r => r.op_code == OpCode.X))) =
      (((opRowsOfRecord ctx rec).filter (fun r => r.op_code == OpCode.X)).map (fun r => r.op_len)) := by
    refine List.map_congr_left ?_
    intro r _
    simp
  rw [hmap, ← opRows_map_code_len ctx rec, sumOpLens_filter_map]

theorem mem_chromRecords {records : List AlignRecord} {c : String} {rec : AlignRecord} :
    rec ∈ chromRecords records c ↔ rec ∈ records ∧ rec.chrom = c := by
  unfold chromRecords
  rw [mem_sortOn, List.mem_filter]
  simp

theorem snvRowsOfRecord_chrom {ctx : Ctx} {rec : AlignRecord} {row : VariantRow}
    (h : row ∈ snvRowsOfRecord ctx rec) : row.chrom = rec.chrom := by
  obtain ⟨r, -, o, -, rfl⟩ := mem_snvRowsOfRecord.mp h
  rfl

theorem insdelRowsOfRecord_chrom {ctx : Ctx} {rec : AlignRecord} {row : VariantRow}
    (h : row ∈ insdelRowsOfRecord ctx rec) : row.chrom = rec.chrom := by
  rcases mem_insdelRowsOfRecord.mp h with ⟨r, -, rfl⟩ | ⟨r, -, rfl⟩ <;> rfl

/-! Claim theorems. -/

/-- C1 counterexample: on the concrete reverse record `recRev` the mismatch op
row has remapped coordinates `(pos, qry_pos) = (1, 4)` and length `L = 2`; the
emitted SNV row for offset `o = 1` (the row at index 1, whose `pos` is
`pos + 1`) has `qry_pos' = 4`, not `qry_pos + (L − 2·1 − 1) = 3` as the claim
states. -/
theorem snv_rev_offset_claimed_formula_fails :
    ((opRowsOfRecord ctxW recRev).getD 0 dummyOp).op_code = OpCode.X ∧
    ((opRowsOfRecord ctxW recRev).getD 0 dummyOp).op_len = 2 ∧
    ((opRowsOfRecord ctxW recRev).getD 0 dummyOp).qry_pos = 4 ∧
    recRev.is_rev = true ∧
    (snvRowsOfRecord ctxW recRev).length = 2 ∧
    ((snvRowsOfRecord ctxW recRev).getD 1 dummyRow).pos =
      ((opRowsOfRecord ctxW recRev).getD 0 dummyOp).pos + 1 ∧
    ((snvRowsOfRecord ctxW recRev).getD 1 dummyRow).qry_pos ≠
      ((opRowsOfRecord ctxW recRev).getD 0 dummyOp).qry_pos + (2 - 2 * 1 - 1) := by
  decide

/-- C1 (amended): for a reverse record, the SNV row emitted at offset `o` of a
mismatch op row with remapped original-contig coordinates `(pos, qry_pos)` and
length `L` has `pos' = pos + o` and
`qry_pos' = qry_pos + o + (L − 2o − 1) = qry_pos + (L − o − 1)`, with
`end' = pos' + 1` and `qry_end' = qry_pos' + 1`; the row is among the record's
emitted SNV rows. -/
theorem snv_rev_offset_coords (ctx : Ctx) (rec : AlignRecord) (r : OpRow) (o : Nat)
    (hrev : rec.is_rev = true)
    (hr : r ∈ opRowsOfRecord ctx rec ∧ r.op_code = OpCode.X) (ho : o < r.op_len) :
    (snvRowOfOffset ctx rec r o).pos = r.pos + (o : Int) ∧
    (snvRowOfOffset ctx rec r o).qry_pos =
      r.qry_pos + (o : Int) + ((r.op_len : Int) - 2 * (o : Int) - 1) ∧
    (snvRowOfOffset ctx rec r o).qry_pos = r.qry_pos + ((r.op_len : Int) - (o : Int) - 1) ∧
    (snvRowOfOffset ctx rec r o).end_ = (snvRowOfOffset ctx rec r o).pos + 1 ∧
    (snvRowOfOffset ctx rec r o).qry_end = (snvRowOfOffset ctx rec r o).qry_pos + 1 ∧
    snvRowOfOffset ctx rec r o ∈ snvRowsOfRecord ctx rec := by
  have h1 : (snvRowOfOffset ctx rec r o).qry_pos =
      r.qry_pos + (o : Int) + ((r.op_len : Int) - 2 * (o : Int) - 1) := by
    simp [snvRowOfOffset, hrev]
  refine ⟨rfl, h1, by rw [h1]; ring, rfl, rfl, ?_⟩
  exact mem_snvRowsOfRecord.mpr ⟨r, hr, o, ho, rfl⟩

/-- C1 (amended) witness: the offset-1 row of the concrete reverse mismatch op
has `qry_pos' = qry_pos + (L − 1 − 1)`. -/
theorem snv_rev_offset_coords_witness :
    (snvRowOfOffset ctxW recRev ((opRowsOfRecord ctxW recRev).getD 0 dummyOp) 1).qry_pos =
      ((opRowsOfRecord ctxW recRev).getD 0 dummyOp).qry_pos +
        ((((opRowsOfRecord ctxW recRev).getD 0 dummyOp).op_len : Int) - 1 - 1) ∧
    snvRowOfOffset ctxW recRev ((opRowsOfRecord ctxW recRev).getD 0 dummyOp) 1 ∈
      snvRowsOfRecord ctxW recRev := by
  have h := snv_rev_offset_coords ctxW recRev ((opRowsOfRecord ctxW recRev).getD 0 dummyOp) 1
    rfl ⟨by decide, by decide⟩ (by decide)
  exact ⟨h.2.2.1, h.2.2.2.2.2⟩

/-- C2: on a reverse record the op rows consumed by the SNV and INS/DEL
emitters are the raw aligned-strand rows (query coordinates seeded at 0)
remapped simultaneously to original-contig space by `qry_pos' = qry_len −
qry_end` and `qry_end' = qry_len − qry_pos`, with `qry_len` the length of the
record's query contig, and both emitters read exactly these remapped rows. -/
theorem rev_remap_original_contig (ctx : Ctx) (rec : AlignRecord)
    (hrev : rec.is_rev = true) :
    opRowsOfRecord ctx rec =
      (rawOpRows rec).map (remapRow ((ctx.qrySeq rec.qry_id).length : Int)) ∧
    (∀ r : OpRow,
      (remapRow ((ctx.qrySeq rec.qry_id).length : Int) r).qry_pos =
        ((ctx.qrySeq rec.qry_id).length : Int) - r.qry_end ∧
      (remapRow ((ctx.qrySeq rec.qry_id).length : Int) r).qry_end =
        ((ctx.qrySeq rec.qry_id).length : Int) - r.qry_pos ∧
      (remapRow ((ctx.qrySeq rec.qry_id).length : Int) r).pos = r.pos ∧
      (remapRow ((ctx.qrySeq rec.qry_id).length : Int) r).end_ = r.end_ ∧
      (remapRow ((ctx.qrySeq rec.qry_id).length : Int) r).op_code = r.op_code ∧
      (remapRow ((ctx.qrySeq rec.qry_id).length : Int) r).op_len = r.op_len) ∧
    snvRowsOfRecord ctx rec = snvFromOps ctx rec (opRowsOfRecord ctx rec) ∧
    insdelRowsOfRecord ctx rec =
      sortOn insdelRecordKey
        ((((opRowsOfRecord ctx rec).filter (fun r => r.op_code == OpCode.I)).map
            (insRowOfOp ctx rec)) ++
          (((opRowsOfRecord ctx rec).filter (fun r => r.op_code == OpCode.D)).map
            (delRowOfOp ctx rec))) := by
  refine ⟨?_, fun r => ⟨rfl, rfl, rfl, rfl, rfl, rfl⟩, rfl, rfl⟩
  unfold opRowsOfRecord
  simp [hrev]

/-- C2 witness: the concrete reverse record's op rows are the raw rows
remapped against its query length 6. -/
theorem rev_remap_original_contig_witness :
    opRowsOfRecord ctxW recRev = (rawOpRows recRev).map (remapRow 6) ∧
    (remapRow 6 ((rawOpRows recRev).getD 0 dummyOp)).qry_pos =
      6 - ((rawOpRows recRev).getD 0 dummyOp).qry_end := by
  have h := rev_remap_original_contig ctxW recRev rfl
  exact ⟨h.1, (h.2.1 ((rawOpRows recRev).getD 0 dummyOp)).1⟩

/-- C3: every emitted SNV row carries `ref` equal to the reference base at its
`pos` and `alt` equal to the query base at its original-contig `qry_pos`,
complemented (A↔T, C↔G, N→N, other → N) exactly when the record is
reverse. -/
theorem snv_ref_alt_bases (ctx : Ctx) (rec : AlignRecord) :
    ∀ row ∈ snvRowsOfRecord ctx rec,
      row.chrom = rec.chrom ∧ row.qry_id = rec.qry_id ∧ row.qry_rev = rec.is_rev ∧
      row.ref = some (seqGet (ctx.refSeq rec.chrom) row.pos) ∧
      (rec.is_rev = false → row.alt = some (seqGet (ctx.qrySeq rec.qry_id) row.qry_pos)) ∧
      (rec.is_rev = true → row.alt = some (compl (seqGet (ctx.qrySeq rec.qry_id) row.qry_pos))) := by
  intro row hrow
  obtain ⟨r, ⟨hr, hx⟩, o, ho, rfl⟩ := mem_snvRowsOfRecord.mp hrow
  refine ⟨rfl, rfl, rfl, rfl, ?_, ?_⟩
  · intro h
    simp [snvRowOfOffset, h]
  · intro h
    simp [snvRowOfOffset, h]

/-- C3 witness: the first SNV row of the concrete reverse record has
`ref = 'C'` (reference base 1) and `alt = 'G'` (complement of query base 5,
which is 'C'). -/
theorem snv_ref_alt_bases_witness :
    ((snvRowsOfRecord ctxW recRev).getD 0 dummyRow).ref = some 'C' ∧
    ((snvRowsOfRecord ctxW recRev).getD 0 dummyRow).alt = some 'G' := by
  have h := snv_ref_alt_bases ctxW recRev
    ((snvRowsOfRecord ctxW recRev).getD 0 dummyRow) (by decide)
  refine ⟨?_, ?_⟩
  · rw [h.2.2.2.1]
    decide
  · rw [h.2.2.2.2.2 rfl]
    decide

/-- C4: every emitted INS row's `seq` is the query slice at the row's
original-contig `qry_pos:qry_end`, reverse-complemented exactly when
`qry_rev`. -/
theorem ins_seq_strand (ctx : Ctx) (rec : AlignRecord) :
    ∀ row ∈ insdelRowsOfRecord ctx rec, row.vartype = "INS" →
      (row.qry_rev = true →
        row.seq = some (revcomp (pySlice (ctx.qrySeq row.qry_id) row.qry_pos row.qry_end))) ∧
      (row.qry_rev = false →
        row.seq = some (pySlice (ctx.qrySeq row.qry_id) row.qry_pos row.qry_end)) := by
  intro row hrow hins
  rcases mem_insdelRowsOfRecord.mp hrow with ⟨r, ⟨hr, hc⟩, rfl⟩ | ⟨r, ⟨hr, hc⟩, rfl⟩
  · constructor
    · intro hrev
      have hrec : rec.is_rev = true := hrev
      simp [insRowOfOp, get_ins_seq, hrec]
    · intro hrev
      have hrec : rec.is_rev = false := hrev
      simp [insRowOfOp, get_ins_seq, hrec]
  · simp [delRowOfOp] at hins

/-- C4 witness: the INS row of the concrete forward record carries the plain
query slice `['G', 'T']`, and the reverse record's INS row carries the reverse
complement of its slice. -/
theorem ins_seq_strand_witness :
    ((insdelRowsOfRecord ctxW recFwd).getD 0 dummyRow).seq =
      some (pySlice (ctxW.qrySeq ((insdelRowsOfRecord ctxW recFwd).getD 0 dummyRow).qry_id)
        ((insdelRowsOfRecord ctxW recFwd).getD 0 dummyRow).qry_pos
        ((insdelRowsOfRecord ctxW recFwd).getD 0 dummyRow).qry_end) ∧
    ((insdelRowsOfRecord ctxW recFwd).getD 0 dummyRow).seq = some ['G', 'T'] := by
  have h := ins_seq_strand ctxW recFwd
    ((insdelRowsOfRecord ctxW recFwd).getD 0 dummyRow) (by decide) (by decide)
  refine ⟨h.2 (by decide), by decide⟩

/-- C5: for a well-formed record, every INS row emitted from an `I` op
satisfies `end = pos + 1`, `varlen = op_len` and
`len(seq) = varlen = qry_end − qry_pos`, and every DEL row emitted from a `D`
op satisfies `end − pos = varlen`, `qry_end = qry_pos + 1` and
`len(seq) = varlen` with `seq = reference[pos:end]`. -/
theorem insdel_payload_invariants (ctx : Ctx) (rec : AlignRecord)
    (hv : validRecord ctx rec) :
    (∀ r, r ∈ opRowsOfRecord ctx rec → r.op_code = OpCode.I →
      (insRowOfOp ctx rec r).end_ = (insRowOfOp ctx rec r).pos + 1 ∧
      (insRowOfOp ctx rec r).varlen = some r.op_len ∧
      (insRowOfOp ctx rec r).qry_end - (insRowOfOp ctx rec r).qry_pos = (r.op_len : Int) ∧
      (((insRowOfOp ctx rec r).seq.getD []).length : Int) = (r.op_len : Int) ∧
      insRowOfOp ctx rec r ∈ insdelRowsOfRecord ctx rec) ∧
    (∀ r, r ∈ opRowsOfRecord ctx rec → r.op_code = OpCode.D →
      (delRowOfOp ctx rec r).end_ - (delRowOfOp ctx rec r).pos = (r.op_len : Int) ∧
      (delRowOfOp ctx rec r).varlen = some r.op_len ∧
      (delRowOfOp ctx rec r).qry_end = (delRowOfOp ctx rec r).qry_pos + 1 ∧
      (delRowOfOp ctx rec r).seq =
        some (pySlice (ctx.refSeq rec.chrom) (delRowOfOp ctx rec r).pos
          (delRowOfOp ctx rec r).end_) ∧
      (((delRowOfOp ctx rec r).seq.getD []).length : Int) = (r.op_len : Int) ∧
      delRowOfOp ctx rec r ∈ insdelRowsOfRecord ctx rec) := by
  constructor
  · intro r hr hc
    obtain ⟨h1, h2, h3, h4, h5, h6⟩ := opRows_mem_valid hv hr
    have hadv : (if ADV_QRY r.op_code then (r.op_len : Int) else 0) = (r.op_len : Int) := by
      rw [hc]
      rfl
    rw [hadv] at h2
    have hle : r.qry_pos ≤ r.qry_end := by omega
    refine ⟨rfl, rfl, ?_, ?_, ?_⟩
    · show r.qry_end - r.qry_pos = (r.op_len : Int)
      omega
    · show ((get_ins_seq ctx rec r.qry_pos r.qry_end).length : Int) = (r.op_len : Int)
      rw [get_ins_seq_length h5 hle h6]
      omega
    · exact mem_insdelRowsOfRecord.mpr (Or.inl ⟨r, ⟨hr, hc⟩, rfl⟩)
  · intro r hr hc
    obtain ⟨h1, h2, h3, h4, h5, h6⟩ := opRows_mem_valid hv hr
    have hadv : (if ADV_REF r.op_code then (r.op_len : Int) else 0) = (r.op_len : Int) := by
      rw [hc]
      rfl
    rw [hadv] at h1
    have hle : r.pos ≤ r.end_ := by omega
    refine ⟨?_, rfl, rfl, rfl, ?_, ?_⟩
    · show r.end_ - r.pos = (r.op_len : Int)
      omega
    · show ((pySlice (ctx.refSeq rec.chrom) r.pos r.end_).length : Int) = (r.op_len : Int)
      rw [pySlice_length h3 hle h4]
      omega
    · exact mem_insdelRowsOfRecord.mpr (Or.inr ⟨r, ⟨hr, hc⟩, rfl⟩)

/-- C5 witness: on the concrete forward record the INS row from its 2-base `I`
op has `varlen = 2` with a 2-base payload, and the DEL row from its `D` op has
`qry_end = qry_pos + 1`. -/
theorem insdel_payload_invariants_witness :
    (insRowOfOp ctxW recFwd ((opRowsOfRecord ctxW recFwd).getD 2 dummyOp)).varlen = some 2 ∧
    (((insRowOfOp ctxW recFwd ((opRowsOfRecord ctxW recFwd).getD 2 dummyOp)).seq.getD
      []).length : Int) =
      (((opRowsOfRecord ctxW recFwd).getD 2 dummyOp).op_len : Int) ∧
    ((opRowsOfRecord ctxW recFwd).getD 2 dummyOp).op_len = 2 ∧
    (delRowOfOp ctxW recFwd ((opRowsOfRecord ctxW recFwd).getD 3 dummyOp)).qry_end =
      (delRowOfOp ctxW recFwd ((opRowsOfRecord ctxW recFwd).getD 3 dummyOp)).qry_pos + 1 := by
  have h := insdel_payload_invariants ctxW recFwd (by decide)
  have hI := h.1 ((opRowsOfRecord ctxW recFwd).getD 2 dummyOp) (by decide) (by decide)
  have hD := h.2 ((opRowsOfRecord ctxW recFwd).getD 3 dummyOp) (by decide) (by decide)
  exact ⟨hI.2.1.trans (by decide), hI.2.2.2.1, by decide, hD.2.2.1⟩

/-- C6: per record, the number of emitted SNV rows equals the summed length of
its `X` ops, and the summed `varlen` over emitted INS (resp. DEL) rows equals
the summed length of its `I` (resp. `D`) ops. -/
theorem per_record_coverage (ctx : Ctx) (rec : AlignRecord) :
    (snvRowsOfRecord ctx rec).length = sumOpLens OpCode.X rec.ops ∧
    (((insdelRowsOfRecord ctx rec).filter (fun v => v.vartype == "INS")).map
      (fun v => v.varlen.getD 0)).sum = sumOpLens OpCode.I rec.ops ∧
    (((insdelRowsOfRecord ctx rec).filter (fun v => v.vartype == "DEL")).map
      (fun v => v.varlen.getD 0)).sum = sumOpLens OpCode.D rec.ops := by
  refine ⟨snvRowsOfRecord_length ctx rec, ?_, ?_⟩
  · have hperm := (insdelRowsOfRecord_perm ctx rec).filter (fun v => v.vartype == "INS")
    rw [List.filter_append] at hperm
    have hins : (((opRowsOfRecord ctx rec).filter (fun r => r.op_code == OpCode.I)).map
        (insRowOfOp ctx rec)).filter (fun v => v.vartype == "INS") =
        ((opRowsOfRecord ctx rec).filter (fun r => r.op_code == OpCode.I)).map
          (insRowOfOp ctx rec) := by
      rw [List.filter_eq_self]
      intro v hv
      obtain ⟨r, -, rfl⟩ := List.mem_map.mp hv
      rfl
    have hdel : (((opRowsOfRecord ctx rec).filter (fun r => r.op_code == OpCode.D)).map
        (delRowOfOp ctx rec)).filter (fun v => v.vartype == "INS") = [] := by
      rw [List.filter_eq_nil_iff]
      intro v hv
      obtain ⟨r, -, rfl⟩ := List.mem_map.mp hv
      simp [delRowOfOp]
    rw [hins, hdel, List.append_nil] at hperm
    rw [(hperm.map (fun v => v.varlen.getD 0)).sum_eq, List.map_map]
    have hcomp : ((fun v : VariantRow => v.varlen.getD 0) ∘ insRowOfOp ctx rec) =
        fun r : OpRow => r.op_len := by
      funext r
      rfl
    rw [hcomp, ← opRows_map_code_len ctx rec, sumOpLens_filter_map]
  · have hperm := (insdelRowsOfRecord_perm ctx rec).filter (fun v => v.vartype == "DEL")
    rw [List.filter_append] at hperm
    have hins : (((opRowsOfRecord ctx rec).filter (fun r => r.op_code == OpCode.I)).map
        (insRowOfOp ctx rec)).filter (fun v => v.vartype == "DEL") = [] := by
      rw [List.filter_eq_nil_iff]
      intro v hv
      obtain ⟨r, -, rfl⟩ := List.mem_map.mp hv
      simp [insRowOfOp]
    have hdel : (((opRowsOfRecord ctx rec).filter (fun r => r.op_code == OpCode.D)).map
        (delRowOfOp ctx rec)).filter (fun v => v.vartype == "DEL") =
        ((opRowsOfRecord ctx rec).filter (fun r => r.op_code == OpCode.D)).map
          (delRowOfOp ctx rec) := by
      rw [List.filter_eq_self]
      intro v hv
      obtain ⟨r, -, rfl⟩ := List.mem_map.mp hv
      rfl
    rw [hins, hdel, List.nil_append] at hperm
    rw [(hperm.map (fun v => v.varlen.getD 0)).sum_eq, List.map_map]
    have hcomp : ((fun v : VariantRow => v.varlen.getD 0) ∘ delRowOfOp ctx rec) =
        fun r : OpRow => r.op_len := by
      funext r
      rfl
    rw [hcomp, ← opRows_map_code_len ctx rec, sumOpLens_filter_map]

/-- C7: the SNV and INS/DEL tables returned on success are concatenations of
per-chromosome partitions in ascending chromosome order; each SNV partition
holds only its chromosome's rows sorted by `(pos, alt, var_score desc,
align score desc, qry_id, qry_pos)`, and each INS/DEL partition likewise under
the same key without `alt`. -/
theorem tables_sorted_partitions (ctx : Ctx) (records : List AlignRecord)
    (temp_dir_name : Option String) (isDir : String → Bool) (tbl : Tables)
    (h : variant_tables_snv_insdel ctx records temp_dir_name isDir = .ok tbl) :
    tbl.snv = (chromList records).flatMap (chromSnvTable ctx records) ∧
    tbl.insdel = (chromList records).flatMap (chromInsdelTable ctx records) ∧
    (chromList records).Sorted (· ≤ ·) ∧
    (∀ c ∈ chromList records, ∀ row ∈ chromSnvTable ctx records c, row.chrom = c) ∧
    (∀ c ∈ chromList records,
      (chromSnvTable ctx records c).Sorted (fun a b => snvChromKey a ≤ snvChromKey b)) ∧
    (∀ c ∈ chromList records, ∀ row ∈ chromInsdelTable ctx records c, row.chrom = c) ∧
    (∀ c ∈ chromList records,
      (chromInsdelTable ctx records c).Sorted
        (fun a b => insdelChromKey a ≤ insdelChromKey b)) := by
  have htbl : tbl.snv = (chromList records).flatMap (chromSnvTable ctx records) ∧
      tbl.insdel = (chromList records).flatMap (chromInsdelTable ctx records) := by
    cases temp_dir_name with
    | none =>
      simp only [variant_tables_snv_insdel, Except.ok.injEq] at h
      exact ⟨by rw [← h], by rw [← h]⟩
    | some d =>
      by_cases hd : isDir d
      · simp only [variant_tables_snv_insdel, hd, if_true, Except.ok.injEq] at h
        exact ⟨by rw [← h], by rw [← h]⟩
      · simp only [variant_tables_snv_insdel, hd, if_false, Bool.false_eq_true,
          reduceCtorEq] at h
  refine ⟨htbl.1, htbl.2, ?_, ?_, ?_, ?_, ?_⟩
  · have hs := sortOn_sorted (fun c : String => c.data) ((records.map (fun r => r.chrom)).dedup)
    exact hs.imp fun hab => String.le_iff_toList_le.mpr hab
  · intro c hc row hrow
    unfold chromSnvTable at hrow
    rw [mem_sortOn, List.mem_flatMap] at hrow
    obtain ⟨rec, hrec, hrow⟩ := hrow
    rw [snvRowsOfRecord_chrom hrow]
    exact (mem_chromRecords.mp hrec).2
  · intro c hc
    exact sortOn_sorted _ _
  · intro c hc row hrow
    unfold chromInsdelTable at hrow
    rw [mem_sortOn, List.mem_flatMap] at hrow
    obtain ⟨rec, hrec, hrow⟩ := hrow
    rw [insdelRowsOfRecord_chrom hrow]
    exact (mem_chromRecords.mp hrec).2
  · intro c hc
    exact sortOn_sorted _ _

/-- C7 witness: the concrete run without a temporary directory returns tables
partitioned over the sorted chromosome list `["chr1", "chr2"]`. -/
theorem tables_sorted_partitions_witness :
    chromList recsW = ["chr1", "chr2"] ∧
    tablesW.snv = (chromList recsW).flatMap (chromSnvTable ctxW recsW) ∧
    (chromList recsW).Sorted (· ≤ ·) := by
  have h := tables_sorted_partitions ctxW recsW none (fun _ => true) tablesW rfl
  exact ⟨by decide, h.1, h.2.2.1⟩

/-- C8: `variant_flag_inv` returns exactly the collaborator's candidate rows
whose flag set differs from `{CLUSTER_SNV}`: no returned row carries exactly
that flag set, and every row with any other flag set is retained. -/
theorem flag_inv_filter (cluster : List FlagRow) :
    variant_flag_inv cluster = cluster.filter (fun r => !(r.flag == ["CLUSTER_SNV"])) ∧
    (∀ r ∈ variant_flag_inv cluster, r.flag ≠ ["CLUSTER_SNV"]) ∧
    (∀ r ∈ cluster, r.flag ≠ ["CLUSTER_SNV"] → r ∈ variant_flag_inv cluster) := by
  refine ⟨rfl, ?_, ?_⟩
  · intro r hr
    unfold variant_flag_inv at hr
    rw [List.mem_filter] at hr
    simpa using hr.2
  · intro r hr hflag
    unfold variant_flag_inv
    rw [List.mem_filter]
    exact ⟨hr, by simpa using hflag⟩

/-- C8 witness: a `MATCH_INDEL` row passes the filter and a `CLUSTER_SNV`-only
row is removed. -/
theorem flag_inv_filter_witness :
    flagMatch ∈ variant_flag_inv [flagSnvOnly, flagMatch] ∧
    flagSnvOnly ∉ variant_flag_inv [flagSnvOnly, flagMatch] := by
  refine ⟨(flag_inv_filter [flagSnvOnly, flagMatch]).2.2 flagMatch (by decide) (by decide), ?_⟩
  intro hmem
  exact (flag_inv_filter [flagSnvOnly, flagMatch]).2.1 flagSnvOnly hmem rfl

/-- C9: a configured temporary directory that does not exist (or is not a
directory) makes `variant_tables_snv_insdel` fail with the source's error for
every input: no table is produced, so no chromosome is processed, no row is
emitted and no spill file is written. -/
theorem temp_dir_check_fails_first (ctx : Ctx) (records : List AlignRecord)
    (d : String) (isDir : String → Bool) (h : isDir d = false) :
    variant_tables_snv_insdel ctx records (some d) isDir =
      .error ("Temporary directory does not exist or is not a directory: " ++ d) ∧
    ∀ tbl : Tables, variant_tables_snv_insdel ctx records (some d) isDir ≠ .ok tbl := by
  have he : variant_tables_snv_insdel ctx records (some d) isDir =
      .error ("Temporary directory does not exist or is not a directory: " ++ d) := by
    simp only [variant_tables_snv_insdel, h, Bool.false_eq_true, if_false]
  refine ⟨he, fun tbl hok => ?_⟩
  rw [he] at hok
  exact Except.noConfusion hok

/-- C9 witness: the concrete pipeline call with a missing scratch directory
returns the error. -/
theorem temp_dir_check_fails_first_witness :
    variant_tables_snv_insdel ctxW recsW (some "scratch") (fun _ => false) =
      .error ("Temporary directory does not exist or is not a directory: " ++ "scratch") :=
  (temp_dir_check_fails_first ctxW recsW "scratch" (fun _ => false) rfl).1

/-- C10: the `filter` of each accepted inversion row is produced by the left
join on the first `align_source` element; a row whose first element matches no
alignment record is still returned, with a null `filter`, rather than dropped
or failing. -/
theorem inv_filter_left_join (align : List AlignRecord) (flags : List FlagRow)
    (tryRegion : FlagRow → Option InvRow) (r : InvRow)
    (hr : r ∈ flags.filterMap tryRegion)
    (hmiss : ∀ a ∈ align, r.align_source.head? ≠ some a.align_index) :
    variant_tables_inv align flags tryRegion =
      (flags.filterMap tryRegion).flatMap (joinFilterRows align) ∧
    joinFilterRows align r =
      [{ row := r, id := id_nonsnv r.chrom r.pos r.vartype r.varlen,
         call_source := "INTRA", filter := none }] ∧
    ({ row := r, id := id_nonsnv r.chrom r.pos r.vartype r.varlen,
       call_source := "INTRA", filter := none } : InvOutRow) ∈
      variant_tables_inv align flags tryRegion := by
  have hnil : align.filter (fun a => r.align_source.head? == some a.align_index) = [] := by
    rw [List.filter_eq_nil_iff]
    intro a ha
    simpa using hmiss a ha
  have hjoin : joinFilterRows align r =
      [{ row := r, id := id_nonsnv r.chrom r.pos r.vartype r.varlen,
         call_source := "INTRA", filter := none }] := by
    simp only [joinFilterRows]
    rw [hnil]
  refine ⟨rfl, hjoin, ?_⟩
  unfold variant_tables_inv
  rw [List.mem_flatMap]
  exact ⟨r, hr, by rw [hjoin]; exact List.mem_singleton.mpr rfl⟩

/-- C10 witness: the concrete accepted inversion row (whose `align_source`
head 99 matches no alignment) is returned with a null `filter`. -/
theorem inv_filter_left_join_witness :
    ({ row := invW, id := id_nonsnv invW.chrom invW.pos invW.vartype invW.varlen,
       call_source := "INTRA", filter := none } : InvOutRow) ∈
      variant_tables_inv recsW [flagMatch] (fun _ => some invW) :=
  (inv_filter_left_join recsW [flagMatch] (fun _ => some invW) invW
    (by decide) (by decide)).2.2

end Pav3
